import Mathlib

/-!
# pico-ice-sdk: FPGA reset/clock controller and CRAM configuration loader

A shallow embedding of `src/ice_fpga.c` and `src/ice_cram.c`.

The C functions talk to hardware through Pico SDK calls and through the SPI
transport of `ice_spi.h`.  Each such call is recorded, with its arguments, in
an event log carried by the `World`; the log is append-only and its order is
the program order of the calls.  The status wire (CDONE) is an external input:
the world holds, for every line, the stream of values its future samples will
show, and `gpio_get` consumes the head of that stream.
-/

namespace PicoIce

/-! ## Data model -/

/-- The four board lines named by `boards/pico_ice.h`.  That header is not part
of the sources, so the lines are kept symbolic; the board wires them to four
different GPIOs. -/
inductive Pin where
  | ICE_FPGA_CRESET_B_PIN
  | ICE_FPGA_CDONE_PIN
  | ICE_FPGA_SPI_CSN_PIN
  | ICE_FPGA_CLOCK_PIN
  deriving DecidableEq, Repr

/-- The auxiliary clock source handed to `clock_gpio_init` (the 48 MHz USB clock). -/
inductive ClockSrc where
  | CLOCKS_CLK_GPOUT0_CTRL_AUXSRC_VALUE_CLK_USB
  deriving DecidableEq, Repr

/-- Pin direction `GPIO_OUT` of the Pico SDK. -/
abbrev GPIO_OUT : Bool := true

/-- Pin direction `GPIO_IN` of the Pico SDK. -/
abbrev GPIO_IN : Bool := false

/-- One call made to the hardware layer, with its arguments (and, for
`gpio_get`, the value it returned). -/
inductive Event where
  | gpio_init (pin : Pin)
  | gpio_put (pin : Pin) (value : Bool)
  | gpio_set_dir (pin : Pin) (out : Bool)
  | gpio_pull_up (pin : Pin)
  | gpio_get (pin : Pin) (value : Bool)
  | busy_wait_us (us : Nat)
  | sleep_us (us : Nat)
  | sleep_ms (ms : Nat)
  | clock_gpio_init (pin : Pin) (src : ClockSrc) (div : Nat)
  | ice_spi_write_blocking (buf : List Nat) (len : Nat)
  | ice_spi_chip_select (pin : Pin)
  | ice_spi_chip_deselect (pin : Pin)
  deriving DecidableEq, Repr

/-- Software-visible registers of one GPIO: the output level, the output
enable (direction) and the pull-up enable. -/
structure PinReg where
  level : Bool
  out : Bool
  pull_up : Bool
  deriving DecidableEq, Repr

/-- State of the board as seen from the program: the future samples of every
input line, the calls made so far (oldest first) and the GPIO registers. -/
structure World where
  input : Pin → Nat → Bool
  events : List Event
  regs : Pin → PinReg

/-- The future samples of the status wire CDONE: `w.cdone i` is what the
`i`-th coming `gpio_get(ICE_FPGA_CDONE_PIN)` will return. -/
def World.cdone (w : World) (i : Nat) : Bool :=
  w.input Pin.ICE_FPGA_CDONE_PIN i

/-- Append one call to the log. -/
def World.emit (e : Event) (w : World) : World :=
  { w with events := w.events ++ [e] }

/-- Rewrite the registers of one GPIO. -/
def World.setReg (pin : Pin) (f : PinReg → PinReg) (w : World) : World :=
  { w with regs := fun p => if p = pin then f (w.regs p) else w.regs p }

/-! ## Pico SDK primitives (contracts of `hardware/gpio.h`, `pico/time.h`,
`hardware/clocks.h`) -/

/-- `gpio_put(pin, value)`: set the output level register. -/
def gpio_put (pin : Pin) (value : Bool) (w : World) : World :=
  (w.setReg pin (fun r => { r with level := value })).emit (Event.gpio_put pin value)

/-- `gpio_set_dir(pin, out)`: set the direction. -/
def gpio_set_dir (pin : Pin) (out : Bool) (w : World) : World :=
  (w.setReg pin (fun r => { r with out := out })).emit (Event.gpio_set_dir pin out)

/-- `gpio_init(pin)`: the SDK makes the pin a software-controlled input with
its output level cleared. -/
def gpio_init (pin : Pin) (w : World) : World :=
  (w.setReg pin (fun r => { r with level := false, out := GPIO_IN })).emit (Event.gpio_init pin)

/-- `gpio_pull_up(pin)`: enable the pull-up. -/
def gpio_pull_up (pin : Pin) (w : World) : World :=
  (w.setReg pin (fun r => { r with pull_up := true })).emit (Event.gpio_pull_up pin)

/-- `gpio_get(pin)`: sample the line; the sample is consumed from the input
stream of that line. -/
def gpio_get (pin : Pin) (w : World) : Bool × World :=
  let v := w.input pin 0
  (v, { w with
          input := fun p n => if p = pin then w.input p (n + 1) else w.input p n
          events := w.events ++ [Event.gpio_get pin v] })

/-- `busy_wait_us(us)`. -/
def busy_wait_us (us : Nat) (w : World) : World :=
  w.emit (Event.busy_wait_us us)

/-- `sleep_us(us)`. -/
def sleep_us (us : Nat) (w : World) : World :=
  w.emit (Event.sleep_us us)

/-- `sleep_ms(ms)`. -/
def sleep_ms (ms : Nat) (w : World) : World :=
  w.emit (Event.sleep_ms ms)

/-- `clock_gpio_init(pin, src, div)`: output clock `src` divided by `div`. -/
def clock_gpio_init (pin : Pin) (src : ClockSrc) (div : Nat) (w : World) : World :=
  w.emit (Event.clock_gpio_init pin src div)

/-! ## SPI transport collaborator (`ice_spi.h`) -/

/-- Modelled from the spec: `ice_spi.c` is not among the sources.  The spec
gives the transport as `write_blocking(bytes, length)`, blocking and
all-or-nothing; the call is recorded with the buffer and the length it was
handed. -/
def ice_spi_write_blocking (buf : List Nat) (len : Nat) (w : World) : World :=
  w.emit (Event.ice_spi_write_blocking buf len)

/-- Modelled from the spec: `ice_spi.c` is not among the sources.  The spec
gives `select(pin)` as the explicit claim of bus ownership; the call is
recorded, and the registers tracked here are those written by the loader
itself. -/
def ice_spi_chip_select (pin : Pin) (w : World) : World :=
  w.emit (Event.ice_spi_chip_select pin)

/-- Modelled from the spec: `ice_spi.c` is not among the sources.  The spec
gives `deselect(pin)` as the explicit release of bus ownership; the call is
recorded, and the registers tracked here are those written by the loader
itself. -/
def ice_spi_chip_deselect (pin : Pin) (w : World) : World :=
  w.emit (Event.ice_spi_chip_deselect pin)

/-! ## `ice_fpga.c` -/

/-- `ice_fpga_init(uint8_t freq_mhz)`.  The argument is converted to
`uint8_t`; the integer division `48 / freq_mhz` is undefined for a zero
divisor, which is reported as `none`. -/
def ice_fpga_init (freq_mhz : Nat) (w : World) : Option World :=
  let freq_mhz := freq_mhz % 256
  -- High impedance mode: do not reset the FPGA: let the user control it
  let w := gpio_set_dir Pin.ICE_FPGA_CRESET_B_PIN GPIO_IN w
  let w := gpio_init Pin.ICE_FPGA_CRESET_B_PIN w
  -- Input pin for sensing configuration status.
  let w := gpio_init Pin.ICE_FPGA_CDONE_PIN w
  let w := gpio_set_dir Pin.ICE_FPGA_CDONE_PIN GPIO_IN w
  -- Output a clock at chosen frequency
  if freq_mhz = 0 then none
  else some (clock_gpio_init Pin.ICE_FPGA_CLOCK_PIN
    ClockSrc.CLOCKS_CLK_GPOUT0_CTRL_AUXSRC_VALUE_CLK_USB (48 / freq_mhz) w)

/-- `ice_fpga_stop()`. -/
def ice_fpga_stop (w : World) : World :=
  let w := gpio_put Pin.ICE_FPGA_CRESET_B_PIN false w
  gpio_set_dir Pin.ICE_FPGA_CRESET_B_PIN GPIO_OUT w

/-- One trip round the `for` loop of `ice_fpga_start` with the counter at
`timeout`: the condition `!gpio_get(CDONE)`, the body, and the step
`timeout--` on a `uint8_t`.  The result is either the value returned by the
function (left) or the counter and world the next trip starts from (right). -/
def ice_fpga_start_trip (timeout : Nat) (w : World) : (Bool × World) ⊕ (Nat × World) :=
  let (v, w) := gpio_get Pin.ICE_FPGA_CDONE_PIN w
  if !v then
    if timeout = 0 then Sum.inl (false, w)
    else
      let w := sleep_ms 1 w
      Sum.inr ((timeout + 255) % 256, w)
  else Sum.inl (true, w)

/-- The `for` loop of `ice_fpga_start`, run for at most `fuel` trips; `none`
when the fuel runs out before the loop is left. -/
def ice_fpga_start_loop : Nat → Nat → World → Option (Bool × World)
  | 0, _, _ => none
  | fuel + 1, timeout, w =>
    match ice_fpga_start_trip timeout w with
    | Sum.inl r => some r
    | Sum.inr (timeout, w) => ice_fpga_start_loop fuel timeout w

/-- `ice_fpga_start()`.  The loop counter is a `uint8_t`, which has 256
values; that many trips plus one are allowed for. -/
def ice_fpga_start (w : World) : Option (Bool × World) :=
  let w := gpio_put Pin.ICE_FPGA_CRESET_B_PIN true w
  let w := gpio_set_dir Pin.ICE_FPGA_CRESET_B_PIN GPIO_OUT w
  ice_fpga_start_loop 257 100 w

/-! ## `ice_cram.c` -/

/-- `static const uint8_t zero = 0x00;` -/
def zero : Nat := 0x00

/-- `ice_cram_open()`.  The value returned by `ice_fpga_start` is dropped, as
in the source. -/
def ice_cram_open (w : World) : Option World :=
  -- Hold FPGA in reset before doing anything with SPI bus.
  let w := ice_fpga_stop w
  -- SPI_SS low signals FPGA to receive bitstream.
  let w := gpio_init Pin.ICE_FPGA_SPI_CSN_PIN w
  let w := gpio_put Pin.ICE_FPGA_SPI_CSN_PIN false w
  let w := gpio_set_dir Pin.ICE_FPGA_SPI_CSN_PIN GPIO_OUT w
  -- The FPGA can be brought out of reset after at least 200ns.
  let w := busy_wait_us 2 w
  match ice_fpga_start w with
  | none => none
  | some (_, w) =>
    -- At least 1200us for FPGA to clear internal configuration memory.
    let w := busy_wait_us 1300 w
    -- Leave SPI_SS high for 8 SPI_SCLKs
    let w := ice_spi_write_blocking [zero] 1 w
    -- Request the bus access preparing for incoming writes
    some (ice_spi_chip_select Pin.ICE_FPGA_SPI_CSN_PIN w)

/-- `ice_cram_write(buf, len)`. -/
def ice_cram_write (buf : List Nat) (len : Nat) (w : World) : World :=
  -- CSN is managed by the previous calls
  ice_spi_write_blocking buf len w

/-- The first loop of `ice_cram_close`, `for (int i = 0; i < 13; ++i)`, with
`n = 13 - i` iterations still to go. -/
def ice_cram_close_poll : Nat → World → World
  | 0, w => w
  | n + 1, w =>
    let w := ice_spi_write_blocking [zero] 1 w
    let (v, w) := gpio_get Pin.ICE_FPGA_CDONE_PIN w
    if v then w else ice_cram_close_poll n w

/-- The second loop of `ice_cram_close`, `for (int i = 0; i < 7; ++i)`, with
`n = 7 - i` iterations still to go. -/
def ice_cram_close_settle : Nat → World → World
  | 0, w => w
  | n + 1, w => ice_cram_close_settle n (ice_spi_write_blocking [zero] 1 w)

/-- `ice_cram_close()`. -/
def ice_cram_close (w : World) : Bool × World :=
  -- Release the SPI bus
  let w := ice_spi_chip_deselect Pin.ICE_FPGA_SPI_CSN_PIN w
  -- Bring SPI_SS high at end of bitstream and leave it pulled up.
  let w := gpio_put Pin.ICE_FPGA_SPI_CSN_PIN true w
  let w := sleep_us 1 w
  let w := gpio_pull_up Pin.ICE_FPGA_SPI_CSN_PIN w
  let w := gpio_set_dir Pin.ICE_FPGA_SPI_CSN_PIN GPIO_IN w
  -- Output dummy bytes. CDONE should go high within 100 SCLKs
  let w := ice_cram_close_poll 13 w
  -- At least another 49 SCLK cycles once CDONE goes high.
  let w := ice_cram_close_settle 7 w
  gpio_get Pin.ICE_FPGA_CDONE_PIN w

/-- The calls `write(buf_1, len_1); write(buf_2, len_2); ...` made one after the
other. -/
def ice_cram_writes : List (List Nat × Nat) → World → World
  | [], w => w
  | (buf, len) :: rest, w => ice_cram_writes rest (ice_cram_write buf len w)

/-- A configuration session: `open(); write()*; close()`. -/
def ice_cram_session (calls : List (List Nat × Nat)) (w : World) : Option (Bool × World) :=
  match ice_cram_open w with
  | none => none
  | some w => some (ice_cram_close (ice_cram_writes calls w))

/-- State of the loop of `ice_fpga_start` after `j` completed trips: the
counter and the world the next trip starts from, `none` once the loop has
been left. -/
def ice_fpga_start_state : Nat → Nat → World → Option (Nat × World)
  | 0, timeout, w => some (timeout, w)
  | j + 1, timeout, w =>
    match ice_fpga_start_trip timeout w with
    | Sum.inl _ => none
    | Sum.inr (timeout, w) => ice_fpga_start_state j timeout w

/-- The world in which `ice_cram_open` calls `ice_fpga_start`. -/
def ice_cram_open_reset (w : World) : World :=
  busy_wait_us 2 (gpio_set_dir Pin.ICE_FPGA_SPI_CSN_PIN GPIO_OUT
    (gpio_put Pin.ICE_FPGA_SPI_CSN_PIN false
      (gpio_init Pin.ICE_FPGA_SPI_CSN_PIN (ice_fpga_stop w))))

/-! ## Observations on the event log -/

/-- The calls added to the log between world `w` and a later world `w2`. -/
def emitted (w w2 : World) : List Event :=
  w2.events.drop w.events.length

/-- The one-byte dummy write `ice_spi_write_blocking(&zero, 1)`. -/
def dummyWrite : Event :=
  Event.ice_spi_write_blocking [0x00] 1

/-- Whether the call is a transport write. -/
def Event.isSpiWrite : Event → Bool
  | Event.ice_spi_write_blocking _ _ => true
  | _ => false

/-- Whether the call is a bus select. -/
def Event.isSelect : Event → Bool
  | Event.ice_spi_chip_select _ => true
  | _ => false

/-- Whether the call is a bus deselect. -/
def Event.isDeselect : Event → Bool
  | Event.ice_spi_chip_deselect _ => true
  | _ => false

/-- Whether the call goes to the SPI transport collaborator. -/
def Event.isTransport (e : Event) : Bool :=
  e.isSpiWrite || e.isSelect || e.isDeselect

/-- Whether the call samples the status wire. -/
def Event.isStatusPoll : Event → Bool
  | Event.gpio_get Pin.ICE_FPGA_CDONE_PIN _ => true
  | _ => false

/-- Whether the call drives the chip-select pin high or rewrites its
direction. -/
def Event.releasesCsn : Event → Bool
  | Event.gpio_put Pin.ICE_FPGA_SPI_CSN_PIN true => true
  | Event.gpio_set_dir Pin.ICE_FPGA_SPI_CSN_PIN _ => true
  | Event.gpio_init Pin.ICE_FPGA_SPI_CSN_PIN => true
  | _ => false

/-- The bytes a call hands to the transport: `buf[0..len)` for a write,
nothing otherwise. -/
def Event.bytes : Event → List Nat
  | Event.ice_spi_write_blocking buf len => buf.take len
  | _ => []

/-- The byte stream a list of calls hands to the transport. -/
def transportBytes : List Event → List Nat
  | [] => []
  | e :: l => e.bytes ++ transportBytes l

/-- Milliseconds spent in `sleep_ms` by a list of calls. -/
def sleepMsTotal : List Event → Nat
  | [] => 0
  | Event.sleep_ms ms :: l => ms + sleepMsTotal l
  | _ :: l => sleepMsTotal l

/-- The calls of `n` failed polls of `ice_fpga_start`: the status wire read
false, then a sleep of 1 ms. -/
def startWaits : Nat → List Event
  | 0 => []
  | n + 1 => Event.gpio_get Pin.ICE_FPGA_CDONE_PIN false :: Event.sleep_ms 1 :: startWaits n

/-- The calls of DummyPoll iterations that sampled the values `vals`: one
dummy byte, then the sample. -/
def dummyPoll : List Bool → List Event
  | [] => []
  | v :: vals => dummyWrite :: Event.gpio_get Pin.ICE_FPGA_CDONE_PIN v :: dummyPoll vals

/-- The 1-based DummyPoll iteration `k` at which the status wire first reads
true, `k = 14` standing for no true sample within the 13 iterations. -/
def DummyPollFirstTrue (w : World) (k : Nat) : Prop :=
  (1 ≤ k ∧ k ≤ 13 ∧ w.cdone (k - 1) = true ∧ ∀ i, i < k - 1 → w.cdone i = false) ∨
  (k = 14 ∧ ∀ i, i < 13 → w.cdone i = false)

/-- A freshly booted board whose status wire will show the samples `cdone`:
nothing logged, every GPIO an undriven input. -/
def boot (cdone : Nat → Bool) : World :=
  { input := fun _ => cdone, events := [], regs := fun _ => ⟨false, false, false⟩ }

/-- The calls `ice_cram_close` makes before its first loop. -/
def closeRelease : List Event :=
  [Event.ice_spi_chip_deselect Pin.ICE_FPGA_SPI_CSN_PIN,
   Event.gpio_put Pin.ICE_FPGA_SPI_CSN_PIN true,
   Event.sleep_us 1,
   Event.gpio_pull_up Pin.ICE_FPGA_SPI_CSN_PIN,
   Event.gpio_set_dir Pin.ICE_FPGA_SPI_CSN_PIN GPIO_IN]

/-- The calls `ice_cram_open` makes up to and including the release of reset
at the head of `ice_fpga_start`, with the length of the busy-wait as a
parameter. -/
def openReset (t1 : Nat) : List Event :=
  [Event.gpio_put Pin.ICE_FPGA_CRESET_B_PIN false,
   Event.gpio_set_dir Pin.ICE_FPGA_CRESET_B_PIN GPIO_OUT,
   Event.gpio_init Pin.ICE_FPGA_SPI_CSN_PIN,
   Event.gpio_put Pin.ICE_FPGA_SPI_CSN_PIN false,
   Event.gpio_set_dir Pin.ICE_FPGA_SPI_CSN_PIN GPIO_OUT,
   Event.busy_wait_us t1,
   Event.gpio_put Pin.ICE_FPGA_CRESET_B_PIN true,
   Event.gpio_set_dir Pin.ICE_FPGA_CRESET_B_PIN GPIO_OUT]

/-- The calls by which `ice_cram_close` lets chip-select float high, after
the deselect. -/
def closeFloat : List Event :=
  [Event.gpio_put Pin.ICE_FPGA_SPI_CSN_PIN true,
   Event.sleep_us 1,
   Event.gpio_pull_up Pin.ICE_FPGA_SPI_CSN_PIN,
   Event.gpio_set_dir Pin.ICE_FPGA_SPI_CSN_PIN GPIO_IN]

/-- The divider of the last `clock_gpio_init` call in a list of calls. -/
def clockDivider : List Event → Option Nat
  | [] => none
  | Event.clock_gpio_init _ _ div :: l =>
    match clockDivider l with
    | some d => some d
    | none => some div
  | _ :: l => clockDivider l

/-! ## Basic facts about the primitives -/

@[simp] theorem emit_events (e : Event) (w : World) :
    (w.emit e).events = w.events ++ [e] := rfl

@[simp] theorem emit_input (e : Event) (w : World) : (w.emit e).input = w.input := rfl

@[simp] theorem emit_regs (e : Event) (w : World) : (w.emit e).regs = w.regs := rfl

@[simp] theorem setReg_events (pin : Pin) (f : PinReg → PinReg) (w : World) :
    (w.setReg pin f).events = w.events := rfl

@[simp] theorem setReg_input (pin : Pin) (f : PinReg → PinReg) (w : World) :
    (w.setReg pin f).input = w.input := rfl

@[simp] theorem setReg_regs (pin : Pin) (f : PinReg → PinReg) (w : World) (p : Pin) :
    (w.setReg pin f).regs p = if p = pin then f (w.regs p) else w.regs p := rfl

@[simp] theorem gpio_get_fst (pin : Pin) (w : World) :
    (gpio_get pin w).1 = w.input pin 0 := rfl

@[simp] theorem gpio_get_events (pin : Pin) (w : World) :
    (gpio_get pin w).2.events = w.events ++ [Event.gpio_get pin (w.input pin 0)] := rfl

@[simp] theorem gpio_get_regs (pin : Pin) (w : World) : (gpio_get pin w).2.regs = w.regs := rfl

@[simp] theorem gpio_get_cdone (w : World) (i : Nat) :
    (gpio_get Pin.ICE_FPGA_CDONE_PIN w).2.cdone i = w.cdone (i + 1) := by
  simp [gpio_get, World.cdone]

theorem emitted_of_append (w w2 : World) (l : List Event) (h : w2.events = w.events ++ l) :
    emitted w w2 = l := by
  simp [emitted, h]

theorem transportBytes_append (a b : List Event) :
    transportBytes (a ++ b) = transportBytes a ++ transportBytes b := by
  induction a with
  | nil => rfl
  | cons e a ih => simp [transportBytes, ih]

theorem sleepMsTotal_append (a b : List Event) :
    sleepMsTotal (a ++ b) = sleepMsTotal a + sleepMsTotal b := by
  induction a with
  | nil => simp [sleepMsTotal]
  | cons e a ih => cases e <;> simp [sleepMsTotal, ih]; omega

theorem sleepMsTotal_startWaits (n : Nat) : sleepMsTotal (startWaits n) = n := by
  induction n with
  | zero => rfl
  | succ n ih => simp [startWaits, sleepMsTotal, ih]; omega

theorem countP_statusPoll_startWaits (n : Nat) :
    (startWaits n).countP Event.isStatusPoll = n := by
  induction n with
  | zero => rfl
  | succ n ih => simp [startWaits, Event.isStatusPoll, ih]

theorem startWaits_mem (n : Nat) (e : Event) (h : e ∈ startWaits n) :
    e = Event.gpio_get Pin.ICE_FPGA_CDONE_PIN false ∨ e = Event.sleep_ms 1 := by
  induction n with
  | zero => simp [startWaits] at h
  | succ n ih =>
    simp only [startWaits, List.mem_cons] at h
    rcases h with h | h | h
    · exact Or.inl h
    · exact Or.inr h
    · exact ih h

/-! ## The poll loop of `ice_fpga_start` -/

/-- The loop of `ice_fpga_start`, entered with counter `timeout` and more fuel
than that, is left after `p + 1 ≤ timeout + 1` polls: `p` polls read false and
were each followed by a 1 ms sleep, the last poll gave the result `b`, and a
false result means the counter was used up. -/
theorem start_loop_spec (fuel : Nat) :
    ∀ (timeout : Nat) (w : World), timeout < fuel → timeout < 256 →
    ∃ p b w2, ice_fpga_start_loop fuel timeout w = some (b, w2) ∧ p ≤ timeout ∧
      w2.events = w.events ++ startWaits p ++ [Event.gpio_get Pin.ICE_FPGA_CDONE_PIN b] ∧
      (∀ i, i < p → w.cdone i = false) ∧ w.cdone p = b ∧ (b = false → p = timeout) ∧
      w2.regs = w.regs ∧ (∀ i, w2.cdone i = w.cdone (i + (p + 1))) := by
  induction fuel with
  | zero => intro timeout w hf; omega
  | succ fuel ih =>
    intro timeout w hf ht
    by_cases hv : w.cdone 0 = true
    · refine ⟨0, true, (gpio_get Pin.ICE_FPGA_CDONE_PIN w).2, ?_, by omega, ?_, ?_, hv, ?_, ?_, ?_⟩
      · have hv2 : w.input Pin.ICE_FPGA_CDONE_PIN 0 = true := hv
        simp [ice_fpga_start_loop, ice_fpga_start_trip, gpio_get, hv2]
      · have hv2 : w.input Pin.ICE_FPGA_CDONE_PIN 0 = true := hv
        simp [startWaits, hv2]
      · intro i hi; omega
      · intro h; cases h
      · simp
      · intro i; simp
    · have hv1 : w.cdone 0 = false := by simpa using hv
      have hv2 : w.input Pin.ICE_FPGA_CDONE_PIN 0 = false := hv1
      by_cases h0 : timeout = 0
      · subst h0
        refine ⟨0, false, (gpio_get Pin.ICE_FPGA_CDONE_PIN w).2, ?_, by omega, ?_, ?_, hv1, ?_, ?_, ?_⟩
        · simp [ice_fpga_start_loop, ice_fpga_start_trip, gpio_get, hv2]
        · simp [startWaits, hv2]
        · intro i hi; omega
        · intro _; rfl
        · simp
        · intro i; simp
      · have hdec : (timeout + 255) % 256 = timeout - 1 := by omega
        obtain ⟨p, b, w2, hrun, hp, hev, hfalse, hb, hto, hregs, hcd⟩ :=
          ih (timeout - 1) (sleep_ms 1 (gpio_get Pin.ICE_FPGA_CDONE_PIN w).2) (by omega) (by omega)
        have hcd1 : ∀ i, (sleep_ms 1 (gpio_get Pin.ICE_FPGA_CDONE_PIN w).2).cdone i
            = w.cdone (i + 1) := by
          intro i; simp [sleep_ms, World.cdone, gpio_get]
        refine ⟨p + 1, b, w2, ?_, by omega, ?_, ?_, ?_, ?_, ?_, ?_⟩
        · simp only [ice_fpga_start_loop, ice_fpga_start_trip]
          simp only [gpio_get, hv2, h0, hdec]
          simpa [gpio_get, hv2] using hrun
        · rw [hev]; simp [sleep_ms, startWaits, hv2]
        · intro i hi
          cases i with
          | zero => exact hv1
          | succ i => rw [← hcd1 i]; exact hfalse i (by omega)
        · rw [← hcd1 p]; exact hb
        · intro hbf; have := hto hbf; omega
        · rw [hregs]; simp [sleep_ms]
        · intro i; rw [hcd i, hcd1]; congr 1

/-- Every completed trip of the loop of `ice_fpga_start` lowers the counter by
exactly one: the `uint8_t` decrement is never applied to zero. -/
theorem start_state_counter (j : Nat) :
    ∀ (t0 : Nat) (w : World) (t : Nat) (wj : World), t0 < 256 →
    ice_fpga_start_state j t0 w = some (t, wj) → t + j = t0 := by
  induction j with
  | zero =>
    intro t0 w t wj _ h
    simp only [ice_fpga_start_state, Option.some.injEq, Prod.mk.injEq] at h
    omega
  | succ j ih =>
    intro t0 w t wj ht h
    simp only [ice_fpga_start_state, ice_fpga_start_trip] at h
    split at h
    · cases h
    · rename_i heq
      split at heq
      · split at heq
        · cases heq
        · rename_i h0
          simp only [Sum.inr.injEq, Prod.mk.injEq] at heq
          obtain ⟨h1, h2⟩ := heq
          subst h1 h2
          have := ih _ _ _ _ (by omega) h
          omega
      · cases heq

theorem startWaits_length (n : Nat) : (startWaits n).length = 2 * n := by
  induction n with
  | zero => rfl
  | succ n ih => simp [startWaits, ih]; omega

/-- A trip that leaves the loop of `ice_fpga_start` logs one poll, whose value
is the value returned. -/
theorem start_trip_inl (t : Nat) (w : World) (b : Bool) (w2 : World)
    (h : ice_fpga_start_trip t w = Sum.inl (b, w2)) :
    w2.events = w.events ++ [Event.gpio_get Pin.ICE_FPGA_CDONE_PIN b] := by
  simp only [ice_fpga_start_trip] at h
  split at h
  · split at h
    · simp only [Sum.inl.injEq, Prod.mk.injEq] at h
      obtain ⟨h1, h2⟩ := h
      subst h1 h2
      rename_i hv _
      simp only [gpio_get, Bool.not_eq_true'] at hv
      simp [gpio_get, hv]
    · cases h
  · simp only [Sum.inl.injEq, Prod.mk.injEq] at h
    obtain ⟨h1, h2⟩ := h
    subst h1 h2
    rename_i hv
    simp only [gpio_get, Bool.not_eq_true', Bool.not_eq_false] at hv
    simp [gpio_get, hv]

/-- A trip that stays in the loop of `ice_fpga_start` logs a poll that read
false and a 1 ms sleep. -/
theorem start_trip_inr (t : Nat) (w : World) (t2 : Nat) (w2 : World)
    (h : ice_fpga_start_trip t w = Sum.inr (t2, w2)) :
    w2.events = w.events ++ [Event.gpio_get Pin.ICE_FPGA_CDONE_PIN false, Event.sleep_ms 1] := by
  simp only [ice_fpga_start_trip] at h
  split at h
  · split at h
    · cases h
    · simp only [Sum.inr.injEq, Prod.mk.injEq] at h
      obtain ⟨h1, h2⟩ := h
      subst h1 h2
      rename_i hv _
      simp only [gpio_get, Bool.not_eq_true'] at hv
      simp [gpio_get, sleep_ms, hv]
  · cases h

/-- A run of the loop of `ice_fpga_start` that returns passes through `j`
completed trips and leaves the loop in the next one. -/
theorem start_loop_state (fuel : Nat) :
    ∀ (t : Nat) (w : World) (b : Bool) (w2 : World),
    ice_fpga_start_loop fuel t w = some (b, w2) →
    ∃ j tj wj, ice_fpga_start_state j t w = some (tj, wj) ∧
      ice_fpga_start_trip tj wj = Sum.inl (b, w2) ∧
      wj.events = w.events ++ startWaits j := by
  induction fuel with
  | zero => intro t w b w2 h; cases h
  | succ fuel ih =>
    intro t w b w2 h
    simp only [ice_fpga_start_loop] at h
    split at h
    · rename_i r heq
      simp only [Option.some.injEq] at h
      subst h
      exact ⟨0, t, w, rfl, heq, by simp [startWaits]⟩
    · rename_i t1 w1 heq
      obtain ⟨j, tj, wj, hs, ht, he⟩ := ih t1 w1 b w2 h
      refine ⟨j + 1, tj, wj, ?_, ht, ?_⟩
      · simp only [ice_fpga_start_state, heq]; exact hs
      · rw [he, start_trip_inr t w t1 w1 heq]; simp [startWaits]

/-- What a call of `ice_fpga_start` does: reset is driven high as an output,
then `p` polls read false, each followed by a 1 ms sleep, and one last poll
gives the returned value `b`; `p` is at most 100 and is 100 when `b` is
false. -/
theorem start_spec (w : World) :
    ∃ p b w2, ice_fpga_start w = some (b, w2) ∧ p ≤ 100 ∧
      w2.events = w.events ++ ([Event.gpio_put Pin.ICE_FPGA_CRESET_B_PIN true,
        Event.gpio_set_dir Pin.ICE_FPGA_CRESET_B_PIN GPIO_OUT] ++ startWaits p ++
        [Event.gpio_get Pin.ICE_FPGA_CDONE_PIN b]) ∧
      (∀ i, i < p → w.cdone i = false) ∧ w.cdone p = b ∧ (b = false → p = 100) ∧
      (∀ pin, w2.regs pin = if pin = Pin.ICE_FPGA_CRESET_B_PIN
        then { level := true, out := GPIO_OUT, pull_up := (w.regs pin).pull_up }
        else w.regs pin) ∧
      (∀ i, w2.cdone i = w.cdone (i + (p + 1))) := by
  obtain ⟨p, b, w2, hrun, hp, hev, hfalse, hb, hto, hregs, hcd⟩ :=
    start_loop_spec 257 100
      (gpio_set_dir Pin.ICE_FPGA_CRESET_B_PIN GPIO_OUT
        (gpio_put Pin.ICE_FPGA_CRESET_B_PIN true w)) (by omega) (by omega)
  refine ⟨p, b, w2, hrun, hp, ?_, ?_, ?_, hto, ?_, ?_⟩
  · rw [hev]; simp [gpio_set_dir, gpio_put]
  · intro i hi; simpa [gpio_set_dir, gpio_put, World.cdone] using hfalse i hi
  · simpa [gpio_set_dir, gpio_put, World.cdone] using hb
  · intro pin
    rw [hregs]
    by_cases hpin : pin = Pin.ICE_FPGA_CRESET_B_PIN <;> simp [gpio_set_dir, gpio_put, hpin]
  · intro i; simpa [gpio_set_dir, gpio_put, World.cdone] using hcd i

/-! ## Claims about `ice_fpga_start` -/

/-- C3: if the status wire reads true at one of the first `N + 1` polls, with
`N ≤ 99`, then `ice_fpga_start` returns true; it returns at the first poll
that reads true, the `p`-th, with `p ≤ N + 1` polls made in all. -/
theorem c3_start_true_within (N : Nat) (w : World) (hN : N ≤ 99)
    (hpin : ∃ i, i ≤ N ∧ w.cdone i = true) :
    ∃ p w2, ice_fpga_start w = some (true, w2) ∧ 1 ≤ p ∧ p ≤ N + 1 ∧
      w.cdone (p - 1) = true ∧ (∀ i, i < p - 1 → w.cdone i = false) ∧
      emitted w w2 = [Event.gpio_put Pin.ICE_FPGA_CRESET_B_PIN true,
        Event.gpio_set_dir Pin.ICE_FPGA_CRESET_B_PIN GPIO_OUT] ++ startWaits (p - 1) ++
        [Event.gpio_get Pin.ICE_FPGA_CDONE_PIN true] ∧
      (emitted w w2).countP Event.isStatusPoll = p := by
  obtain ⟨p, b, w2, hrun, hp, hev, hfalse, hb, hto, _, _⟩ := start_spec w
  obtain ⟨i, hi, hit⟩ := hpin
  have hpi : p ≤ i := by
    by_contra hlt
    have := hfalse i (by omega)
    rw [hit] at this; cases this
  have hbt : b = true := by
    cases b with
    | true => rfl
    | false =>
      have := hto rfl
      omega
  subst hbt
  have hem := emitted_of_append w w2 _ hev
  refine ⟨p + 1, w2, hrun, by omega, by omega, by simpa using hb, ?_, ?_, ?_⟩
  · intro j hj; exact hfalse j (by omega)
  · rw [hem]; simp
  · rw [hem]
    simp [List.countP_append, countP_statusPoll_startWaits, Event.isStatusPoll, List.countP_cons]

/-- C3 at a concrete trace: the wire first reads true at the third poll
(`N = 2`). -/
theorem c3_start_true_within_witness :
    (2 ≤ 99 ∧ ∃ i, i ≤ 2 ∧ (boot (fun n => n == 2)).cdone i = true) ∧
    ∃ p w2, ice_fpga_start (boot (fun n => n == 2)) = some (true, w2) ∧ 1 ≤ p ∧ p ≤ 2 + 1 ∧
      (boot (fun n => n == 2)).cdone (p - 1) = true ∧
      (∀ i, i < p - 1 → (boot (fun n => n == 2)).cdone i = false) ∧
      emitted (boot (fun n => n == 2)) w2 = [Event.gpio_put Pin.ICE_FPGA_CRESET_B_PIN true,
        Event.gpio_set_dir Pin.ICE_FPGA_CRESET_B_PIN GPIO_OUT] ++ startWaits (p - 1) ++
        [Event.gpio_get Pin.ICE_FPGA_CDONE_PIN true] ∧
      (emitted (boot (fun n => n == 2)) w2).countP Event.isStatusPoll = p :=
  ⟨⟨by decide, 2, by decide, rfl⟩,
   c3_start_true_within 2 (boot (fun n => n == 2)) (by decide) ⟨2, by decide, rfl⟩⟩

/-- C4 as stated fails: with the status wire false at the first 100 polls and
true at the 101st, `ice_fpga_start` makes that 101st poll and returns true. -/
theorem c4_counterexample :
    (∀ i, i < 100 → (boot (fun n => n == 100)).cdone i = false) ∧
    (ice_fpga_start (boot (fun n => n == 100))).map Prod.fst = some true ∧
    ¬ ∃ w2, ice_fpga_start (boot (fun n => n == 100)) = some (false, w2) := by
  have hres : (ice_fpga_start (boot (fun n => n == 100))).map Prod.fst = some true := by rfl
  refine ⟨?_, hres, ?_⟩
  · intro i hi
    simp only [boot, World.cdone, beq_eq_false_iff_ne, ne_eq]
    omega
  · rintro ⟨w2, h⟩
    rw [h] at hres
    cases hres

/-- C4 (amended): if the status wire reads false at each of the first 101
polls, `ice_fpga_start` returns false, after exactly 101 polls and 100 sleeps
of 1 ms; later values of the wire are never sampled. -/
theorem c4_start_false_after_101 (w : World) (h : ∀ i, i < 101 → w.cdone i = false) :
    ∃ w2, ice_fpga_start w = some (false, w2) ∧
      emitted w w2 = [Event.gpio_put Pin.ICE_FPGA_CRESET_B_PIN true,
        Event.gpio_set_dir Pin.ICE_FPGA_CRESET_B_PIN GPIO_OUT] ++ startWaits 100 ++
        [Event.gpio_get Pin.ICE_FPGA_CDONE_PIN false] ∧
      (emitted w w2).countP Event.isStatusPoll = 101 := by
  obtain ⟨p, b, w2, hrun, hp, hev, hfalse, hb, hto, _, _⟩ := start_spec w
  have hbf : b = false := by rw [← hb]; exact h p (by omega)
  subst hbf
  have hp100 : p = 100 := hto rfl
  subst hp100
  have hem := emitted_of_append w w2 _ hev
  refine ⟨w2, hrun, ?_, ?_⟩
  · rw [hem]
  · rw [hem]
    simp [List.countP_append, countP_statusPoll_startWaits, Event.isStatusPoll, List.countP_cons]

/-- C4 (amended) at the trace that never asserts. -/
theorem c4_start_false_after_101_witness :
    (∀ i, i < 101 → (boot (fun _ => false)).cdone i = false) ∧
    ∃ w2, ice_fpga_start (boot (fun _ => false)) = some (false, w2) ∧
      emitted (boot (fun _ => false)) w2 = [Event.gpio_put Pin.ICE_FPGA_CRESET_B_PIN true,
        Event.gpio_set_dir Pin.ICE_FPGA_CRESET_B_PIN GPIO_OUT] ++ startWaits 100 ++
        [Event.gpio_get Pin.ICE_FPGA_CDONE_PIN false] ∧
      (emitted (boot (fun _ => false)) w2).countP Event.isStatusPoll = 101 :=
  ⟨fun _ _ => rfl, c4_start_false_after_101 (boot (fun _ => false)) (fun _ _ => rfl)⟩

/-- C8: `ice_fpga_start` always returns.  It makes `p` polls, `1 ≤ p ≤ 101`;
every poll but the last read false and is followed by one 1 ms sleep before
the next poll, so it sleeps `p - 1` times, at most 100 ms in all, and exactly
100 times when it returns false.  It returns true at the `q`-th poll when that
is the first poll to read true (`q ≤ 101`), after `q - 1` sleeps.  After `j`
completed trips the 8-bit counter holds exactly `100 - j`: it never wraps. -/
theorem c8_start_sleep_budget (w : World) :
    ∃ p b w2, ice_fpga_start w = some (b, w2) ∧ 1 ≤ p ∧ p ≤ 101 ∧
      emitted w w2 = [Event.gpio_put Pin.ICE_FPGA_CRESET_B_PIN true,
        Event.gpio_set_dir Pin.ICE_FPGA_CRESET_B_PIN GPIO_OUT] ++ startWaits (p - 1) ++
        [Event.gpio_get Pin.ICE_FPGA_CDONE_PIN b] ∧
      (emitted w w2).countP Event.isStatusPoll = p ∧
      (emitted w w2).count (Event.sleep_ms 1) = p - 1 ∧
      sleepMsTotal (emitted w w2) = p - 1 ∧
      sleepMsTotal (emitted w w2) ≤ 100 ∧
      (b = false → sleepMsTotal (emitted w w2) = 100) ∧
      (∀ q, 1 ≤ q → q ≤ 101 → w.cdone (q - 1) = true → (∀ i, i < q - 1 → w.cdone i = false) →
        b = true ∧ p = q) ∧
      (∀ j t wj, ice_fpga_start_state j 100
          (gpio_set_dir Pin.ICE_FPGA_CRESET_B_PIN GPIO_OUT
            (gpio_put Pin.ICE_FPGA_CRESET_B_PIN true w)) = some (t, wj) →
        t + j = 100) ∧
      (∃ wj, ice_fpga_start_state (p - 1) 100
          (gpio_set_dir Pin.ICE_FPGA_CRESET_B_PIN GPIO_OUT
            (gpio_put Pin.ICE_FPGA_CRESET_B_PIN true w)) = some (101 - p, wj) ∧
        ice_fpga_start_trip (101 - p) wj = Sum.inl (b, w2)) := by
  obtain ⟨p, b, w2, hrun, hp, hev, hfalse, hb, hto, _, _⟩ := start_spec w
  have hem := emitted_of_append w w2 _ hev
  obtain ⟨j, tj, wj, hstate, htrip, hevj⟩ := start_loop_state 257 100 _ b w2 hrun
  have htj : tj + j = 100 := start_state_counter j 100 _ tj wj (by omega) hstate
  have hjp : j = p := by
    have h2 := start_trip_inl tj wj b w2 htrip
    rw [hevj, hev] at h2
    simp only [gpio_set_dir, gpio_put, emit_events, setReg_events, List.append_assoc,
      List.cons_append, List.nil_append, List.singleton_append] at h2
    have h3 := congrArg List.length h2
    simp only [List.length_append, List.length_cons, List.length_nil, startWaits_length] at h3
    omega
  rw [hjp] at hstate htj
  have hsleep : sleepMsTotal (emitted w w2) = p := by
    rw [hem]
    simp [sleepMsTotal_append, sleepMsTotal_startWaits, sleepMsTotal]
  have hcount : (emitted w w2).count (Event.sleep_ms 1) = p := by
    rw [hem]
    have hc : ∀ n, (startWaits n).count (Event.sleep_ms 1) = n := by
      intro n
      induction n with
      | zero => rfl
      | succ n ih => simp [startWaits, List.count_cons, ih]
    simp [List.count_append, List.count_cons, hc]
  refine ⟨p + 1, b, w2, hrun, by omega, by omega, ?_, ?_, ?_, ?_, ?_, ?_, ?_, ?_, ?_⟩
  · rw [hem]; simp
  · rw [hem]
    simp [List.countP_append, countP_statusPoll_startWaits, Event.isStatusPoll, List.countP_cons]
  · simpa using hcount
  · simpa using hsleep
  · omega
  · intro hbf; have := hto hbf; omega
  · intro q hq1 hq2 hqt hqf
    have hpq : p ≤ q - 1 := by
      by_contra hlt
      have := hfalse (q - 1) (by omega)
      rw [hqt] at this; cases this
    have hqp : q - 1 ≤ p := by
      by_contra hlt
      have := hqf p (by omega)
      cases b with
      | true => rw [hb] at this; cases this
      | false => have := hto rfl; omega
    have hpe : p = q - 1 := by omega
    refine ⟨?_, by omega⟩
    rw [← hb, hpe]; exact hqt
  · intro i t wi h
    exact start_state_counter i 100 _ t wi (by omega) h
  · have h101 : 101 - (p + 1) = tj := by omega
    refine ⟨wj, ?_, ?_⟩
    · rw [h101]; simpa using hstate
    · rw [h101]; exact htrip

/-- C8 at a concrete trace: the wire first reads true at the 50th poll. -/
theorem c8_start_sleep_budget_witness :
    ∃ p b w2, ice_fpga_start (boot (fun n => n == 49)) = some (b, w2) ∧ 1 ≤ p ∧ p ≤ 101 ∧
      emitted (boot (fun n => n == 49)) w2 = [Event.gpio_put Pin.ICE_FPGA_CRESET_B_PIN true,
        Event.gpio_set_dir Pin.ICE_FPGA_CRESET_B_PIN GPIO_OUT] ++ startWaits (p - 1) ++
        [Event.gpio_get Pin.ICE_FPGA_CDONE_PIN b] ∧
      (emitted (boot (fun n => n == 49)) w2).countP Event.isStatusPoll = p ∧
      (emitted (boot (fun n => n == 49)) w2).count (Event.sleep_ms 1) = p - 1 ∧
      sleepMsTotal (emitted (boot (fun n => n == 49)) w2) = p - 1 ∧
      sleepMsTotal (emitted (boot (fun n => n == 49)) w2) ≤ 100 ∧
      (b = false → sleepMsTotal (emitted (boot (fun n => n == 49)) w2) = 100) ∧
      (∀ q, 1 ≤ q → q ≤ 101 → (boot (fun n => n == 49)).cdone (q - 1) = true →
        (∀ i, i < q - 1 → (boot (fun n => n == 49)).cdone i = false) → b = true ∧ p = q) ∧
      (∀ j t wj, ice_fpga_start_state j 100
          (gpio_set_dir Pin.ICE_FPGA_CRESET_B_PIN GPIO_OUT
            (gpio_put Pin.ICE_FPGA_CRESET_B_PIN true (boot (fun n => n == 49)))) = some (t, wj) →
        t + j = 100) ∧
      (∃ wj, ice_fpga_start_state (p - 1) 100
          (gpio_set_dir Pin.ICE_FPGA_CRESET_B_PIN GPIO_OUT
            (gpio_put Pin.ICE_FPGA_CRESET_B_PIN true (boot (fun n => n == 49)))) =
          some (101 - p, wj) ∧
        ice_fpga_start_trip (101 - p) wj = Sum.inl (b, w2)) :=
  c8_start_sleep_budget (boot (fun n => n == 49))

/-! ## The loops of `ice_cram_close` -/

theorem dummyPoll_mem (vals : List Bool) (e : Event) (h : e ∈ dummyPoll vals) :
    e = dummyWrite ∨ ∃ v, e = Event.gpio_get Pin.ICE_FPGA_CDONE_PIN v := by
  induction vals with
  | nil => simp [dummyPoll] at h
  | cons v vals ih =>
    simp only [dummyPoll, List.mem_cons] at h
    rcases h with h | h | h
    · exact Or.inl h
    · exact Or.inr ⟨v, h⟩
    · exact ih h

theorem countP_spiWrite_dummyPoll (vals : List Bool) :
    (dummyPoll vals).countP Event.isSpiWrite = vals.length := by
  induction vals with
  | nil => rfl
  | cons v vals ih => simp [dummyPoll, dummyWrite, Event.isSpiWrite, ih]

theorem countP_statusPoll_dummyPoll (vals : List Bool) :
    (dummyPoll vals).countP Event.isStatusPoll = vals.length := by
  induction vals with
  | nil => rfl
  | cons v vals ih => simp [dummyPoll, dummyWrite, Event.isStatusPoll, ih]

theorem transportBytes_dummyPoll (vals : List Bool) :
    transportBytes (dummyPoll vals) = List.replicate vals.length 0 := by
  induction vals with
  | nil => rfl
  | cons v vals ih =>
    simp [dummyPoll, dummyWrite, transportBytes, Event.bytes, ih, List.replicate_succ]

theorem transportBytes_replicate_dummyWrite (n : Nat) :
    transportBytes (List.replicate n dummyWrite) = List.replicate n 0 := by
  induction n with
  | zero => rfl
  | succ n ih =>
    simp [dummyWrite, transportBytes, Event.bytes, List.replicate_succ] at ih ⊢
    exact ih

/-- The DummyPoll loop with `n` iterations to go runs `p ≤ n` of them, each
writing one dummy byte and then sampling the status wire; it stops either at
the first sample that reads true or, all samples false, when the budget is
used up. -/
theorem close_poll_spec (n : Nat) :
    ∀ w : World, ∃ p, p ≤ n ∧
      (ice_cram_close_poll n w).events = w.events ++ dummyPoll ((List.range p).map w.cdone) ∧
      (ice_cram_close_poll n w).regs = w.regs ∧
      (∀ i, (ice_cram_close_poll n w).cdone i = w.cdone (i + p)) ∧
      ((1 ≤ p ∧ w.cdone (p - 1) = true ∧ ∀ i, i < p - 1 → w.cdone i = false) ∨
       (p = n ∧ ∀ i, i < n → w.cdone i = false)) := by
  induction n with
  | zero =>
    intro w
    exact ⟨0, by omega, by simp [ice_cram_close_poll, dummyPoll], rfl, fun i => rfl,
      Or.inr ⟨rfl, fun i hi => by omega⟩⟩
  | succ n ih =>
    intro w
    by_cases hv : w.cdone 0 = true
    · have hv2 : w.input Pin.ICE_FPGA_CDONE_PIN 0 = true := hv
      refine ⟨1, by omega, ?_, ?_, ?_, Or.inl ⟨by omega, hv, fun i hi => by omega⟩⟩
      · simp [ice_cram_close_poll, ice_spi_write_blocking, gpio_get, World.emit, hv2,
          dummyPoll, dummyWrite, zero, hv]
      · simp [ice_cram_close_poll, ice_spi_write_blocking, gpio_get, World.emit, hv2]
      · intro i
        simp [ice_cram_close_poll, ice_spi_write_blocking, gpio_get, World.emit, hv2,
          World.cdone]
    · have hv1 : w.cdone 0 = false := by simpa using hv
      have hv2 : w.input Pin.ICE_FPGA_CDONE_PIN 0 = false := hv1
      have hstep : ice_cram_close_poll (n + 1) w = ice_cram_close_poll n
          (gpio_get Pin.ICE_FPGA_CDONE_PIN (ice_spi_write_blocking [zero] 1 w)).2 := by
        simp [ice_cram_close_poll, ice_spi_write_blocking, gpio_get, World.emit, hv2]
      have hcd1 : ∀ i, (gpio_get Pin.ICE_FPGA_CDONE_PIN
          (ice_spi_write_blocking [zero] 1 w)).2.cdone i = w.cdone (i + 1) := by
        intro i; simp [ice_spi_write_blocking, World.cdone, gpio_get]
      obtain ⟨p, hp, hev, hregs, hcd, hstop⟩ :=
        ih (gpio_get Pin.ICE_FPGA_CDONE_PIN (ice_spi_write_blocking [zero] 1 w)).2
      have hfun : (gpio_get Pin.ICE_FPGA_CDONE_PIN
          (ice_spi_write_blocking [zero] 1 w)).2.cdone = fun i => w.cdone (i + 1) :=
        funext hcd1
      refine ⟨p + 1, by omega, ?_, ?_, ?_, ?_⟩
      · rw [hstep, hev, hfun, List.range_succ_eq_map]
        simp [ice_spi_write_blocking, dummyPoll, dummyWrite, zero, hv1, hv2, List.map_map,
          Function.comp_def]
      · rw [hstep, hregs]; simp [ice_spi_write_blocking]
      · intro i; rw [hstep, hcd i, hcd1]; rfl
      · rcases hstop with ⟨h1, h2, h3⟩ | ⟨h1, h2⟩
        · left
          refine ⟨by omega, ?_, ?_⟩
          · have := h2; rw [hcd1] at this
            have hidx : p - 1 + 1 = p + 1 - 1 := by omega
            rw [hidx] at this; exact this
          · intro i hi
            cases i with
            | zero => exact hv1
            | succ i => rw [← hcd1 i]; exact h3 i (by omega)
        · right
          refine ⟨by omega, ?_⟩
          intro i hi
          cases i with
          | zero => exact hv1
          | succ i => rw [← hcd1 i]; exact h2 i (by omega)

/-- The Settle loop writes one dummy byte per iteration and nothing else. -/
theorem close_settle_spec (n : Nat) :
    ∀ w : World, (ice_cram_close_settle n w).events = w.events ++ List.replicate n dummyWrite ∧
      (ice_cram_close_settle n w).regs = w.regs ∧
      (ice_cram_close_settle n w).input = w.input := by
  induction n with
  | zero => intro w; simp [ice_cram_close_settle]
  | succ n ih =>
    intro w
    obtain ⟨h1, h2, h3⟩ := ih (ice_spi_write_blocking [zero] 1 w)
    refine ⟨?_, ?_, ?_⟩
    · simp only [ice_cram_close_settle]
      rw [h1]
      simp [ice_spi_write_blocking, dummyWrite, zero, List.replicate_succ]
    · simp only [ice_cram_close_settle]; rw [h2]; simp [ice_spi_write_blocking]
    · simp only [ice_cram_close_settle]; rw [h3]; simp [ice_spi_write_blocking]

/-- What a call of `ice_cram_close` does: deselect and release chip-select,
`p` DummyPoll iterations (`1 ≤ p ≤ 13`), seven settle bytes, and a last sample
of the status wire, which is the value returned. -/
theorem close_spec (w : World) :
    ∃ p, 1 ≤ p ∧ p ≤ 13 ∧
      (ice_cram_close w).2.events = w.events ++ (closeRelease ++
        dummyPoll ((List.range p).map w.cdone) ++ List.replicate 7 dummyWrite ++
        [Event.gpio_get Pin.ICE_FPGA_CDONE_PIN (ice_cram_close w).1]) ∧
      (ice_cram_close w).1 = w.cdone p ∧
      ((w.cdone (p - 1) = true ∧ ∀ i, i < p - 1 → w.cdone i = false) ∨
       (p = 13 ∧ ∀ i, i < 13 → w.cdone i = false)) := by
  obtain ⟨p, hp, hev, hregs, hcd, hstop⟩ := close_poll_spec 13
    (gpio_set_dir Pin.ICE_FPGA_SPI_CSN_PIN GPIO_IN
      (gpio_pull_up Pin.ICE_FPGA_SPI_CSN_PIN
        (sleep_us 1 (gpio_put Pin.ICE_FPGA_SPI_CSN_PIN true
          (ice_spi_chip_deselect Pin.ICE_FPGA_SPI_CSN_PIN w)))))
  obtain ⟨sev, sregs, sinp⟩ := close_settle_spec 7 (ice_cram_close_poll 13
    (gpio_set_dir Pin.ICE_FPGA_SPI_CSN_PIN GPIO_IN
      (gpio_pull_up Pin.ICE_FPGA_SPI_CSN_PIN
        (sleep_us 1 (gpio_put Pin.ICE_FPGA_SPI_CSN_PIN true
          (ice_spi_chip_deselect Pin.ICE_FPGA_SPI_CSN_PIN w))))))
  have hc0 : (gpio_set_dir Pin.ICE_FPGA_SPI_CSN_PIN GPIO_IN
      (gpio_pull_up Pin.ICE_FPGA_SPI_CSN_PIN
        (sleep_us 1 (gpio_put Pin.ICE_FPGA_SPI_CSN_PIN true
          (ice_spi_chip_deselect Pin.ICE_FPGA_SPI_CSN_PIN w))))).cdone = w.cdone := by
    funext i
    simp [gpio_set_dir, gpio_pull_up, sleep_us, gpio_put, ice_spi_chip_deselect, World.cdone]
  rw [hc0] at hev hcd hstop
  have hres : (ice_cram_close w).1 = w.cdone p := by
    have := hcd 0
    simp only [Nat.zero_add] at this
    rw [← this]
    simp only [ice_cram_close, gpio_get_fst, sinp]
    rfl
  have hp1 : 1 ≤ p := by
    rcases hstop with ⟨h1, _⟩ | ⟨h1, _⟩ <;> omega
  refine ⟨p, hp1, hp, ?_, hres, ?_⟩
  · simp only [ice_cram_close, gpio_get_events, gpio_get_fst]
    rw [sev, hev, sinp]
    simp [gpio_set_dir, gpio_pull_up, sleep_us, gpio_put, ice_spi_chip_deselect, closeRelease,
      hres]
  · rcases hstop with ⟨_, h2, h3⟩ | ⟨h1, h2⟩
    · exact Or.inl ⟨h2, h3⟩
    · exact Or.inr ⟨h1, h2⟩

/-- The number of DummyPoll iterations run is `min k 13` for the first-true
iteration `k` of the trace. -/
theorem dummyPoll_iterations (w : World) (p : Nat) (hp1 : 1 ≤ p) (hp : p ≤ 13)
    (hstop : (w.cdone (p - 1) = true ∧ ∀ i, i < p - 1 → w.cdone i = false) ∨
      (p = 13 ∧ ∀ i, i < 13 → w.cdone i = false))
    (k : Nat) (hk : DummyPollFirstTrue w k) : p = min k 13 := by
  rcases hstop with ⟨h2, h3⟩ | ⟨h1, h2⟩
  · rcases hk with ⟨k1, k13, kt, kf⟩ | ⟨k14, kf⟩
    · rcases Nat.lt_trichotomy (p - 1) (k - 1) with hlt | heq | hgt
      · have := kf (p - 1) hlt
        rw [h2] at this; cases this
      · omega
      · have := h3 (k - 1) hgt
        rw [kt] at this; cases this
    · have := kf (p - 1) (by omega)
      rw [h2] at this; cases this
  · rcases hk with ⟨k1, k13, kt, kf⟩ | ⟨k14, kf⟩
    · have := h2 (k - 1) (by omega)
      rw [kt] at this; cases this
    · omega

/-! ## Claims about `ice_cram_close` -/

/-- C1: the transport writes of `ice_cram_close` are all the one-byte write of
`0x00`; the bytes they carry number `min k 13 + 7` for the 1-based DummyPoll
iteration `k` at which the status wire first reads true (`k = 14` if none of
the 13 does), so between 8 and 20, 8 when the wire is true from the first
iteration and 20 when it never asserts. -/
theorem c1_close_dummy_bytes (w : World) :
    (∀ e, e ∈ emitted w (ice_cram_close w).2 → e.isSpiWrite = true →
      e = Event.ice_spi_write_blocking [0x00] 1) ∧
    transportBytes (emitted w (ice_cram_close w).2) =
      List.replicate ((emitted w (ice_cram_close w).2).countP Event.isSpiWrite) 0x00 ∧
    8 ≤ (transportBytes (emitted w (ice_cram_close w).2)).length ∧
    (transportBytes (emitted w (ice_cram_close w).2)).length ≤ 20 ∧
    (∃ k, DummyPollFirstTrue w k) ∧
    (∀ k, DummyPollFirstTrue w k →
      (transportBytes (emitted w (ice_cram_close w).2)).length = min k 13 + 7) ∧
    (w.cdone 0 = true → (transportBytes (emitted w (ice_cram_close w).2)).length = 8) ∧
    ((∀ i, i < 13 → w.cdone i = false) →
      (transportBytes (emitted w (ice_cram_close w).2)).length = 20) := by
  obtain ⟨p, hp1, hp, hev, hres, hstop⟩ := close_spec w
  have hem := emitted_of_append w (ice_cram_close w).2 _ hev
  have hbytes : transportBytes (emitted w (ice_cram_close w).2) = List.replicate (p + 7) 0 := by
    rw [hem]
    simp only [transportBytes_append, transportBytes_dummyPoll,
      transportBytes_replicate_dummyWrite, List.length_map, List.length_range]
    simp [closeRelease, transportBytes, Event.bytes, List.replicate_add]
  have hcount : (emitted w (ice_cram_close w).2).countP Event.isSpiWrite = p + 7 := by
    rw [hem]
    simp [List.countP_append, countP_spiWrite_dummyPoll, closeRelease, Event.isSpiWrite,
      List.countP_cons, List.countP_replicate, dummyWrite]
  have hlen : (transportBytes (emitted w (ice_cram_close w).2)).length = p + 7 := by
    rw [hbytes]; simp
  refine ⟨?_, ?_, by omega, by omega, ?_, ?_, ?_, ?_⟩
  · intro e he hw
    rw [hem] at he
    simp only [List.mem_append, List.mem_singleton] at he
    rcases he with ((he | he) | he) | he
    · simp only [closeRelease, List.mem_cons, List.mem_singleton] at he
      rcases he with he | he | he | he | he | he
      · subst he; cases hw
      · subst he; cases hw
      · subst he; cases hw
      · subst he; cases hw
      · subst he; cases hw
      · simp at he
    · rcases dummyPoll_mem _ e he with h | ⟨v, h⟩
      · rw [h]; rfl
      · subst h; cases hw
    · rw [List.eq_of_mem_replicate he]; rfl
    · subst he; cases hw
  · rw [hbytes, hcount]
  · rcases hstop with ⟨h2, h3⟩ | ⟨h1, h2⟩
    · exact ⟨p, Or.inl ⟨hp1, hp, h2, h3⟩⟩
    · exact ⟨14, Or.inr ⟨rfl, h2⟩⟩
  · intro k hk
    rw [hlen, dummyPoll_iterations w p hp1 hp hstop k hk]
  · intro h0
    have hk : DummyPollFirstTrue w 1 := Or.inl ⟨by omega, by omega, h0, fun i hi => by omega⟩
    rw [hlen, dummyPoll_iterations w p hp1 hp hstop 1 hk]
    rfl
  · intro hall
    have hk : DummyPollFirstTrue w 14 := Or.inr ⟨rfl, hall⟩
    rw [hlen, dummyPoll_iterations w p hp1 hp hstop 14 hk]
    rfl

/-- C1 at a concrete trace: the status wire first reads true at the third
DummyPoll iteration. -/
theorem c1_close_dummy_bytes_witness :
    (∀ e, e ∈ emitted (boot (fun n => n == 2)) (ice_cram_close (boot (fun n => n == 2))).2 →
      e.isSpiWrite = true → e = Event.ice_spi_write_blocking [0x00] 1) ∧
    transportBytes (emitted (boot (fun n => n == 2)) (ice_cram_close (boot (fun n => n == 2))).2) =
      List.replicate ((emitted (boot (fun n => n == 2))
        (ice_cram_close (boot (fun n => n == 2))).2).countP Event.isSpiWrite) 0x00 ∧
    8 ≤ (transportBytes (emitted (boot (fun n => n == 2))
      (ice_cram_close (boot (fun n => n == 2))).2)).length ∧
    (transportBytes (emitted (boot (fun n => n == 2))
      (ice_cram_close (boot (fun n => n == 2))).2)).length ≤ 20 ∧
    (∃ k, DummyPollFirstTrue (boot (fun n => n == 2)) k) ∧
    (∀ k, DummyPollFirstTrue (boot (fun n => n == 2)) k →
      (transportBytes (emitted (boot (fun n => n == 2))
        (ice_cram_close (boot (fun n => n == 2))).2)).length = min k 13 + 7) ∧
    ((boot (fun n => n == 2)).cdone 0 = true →
      (transportBytes (emitted (boot (fun n => n == 2))
        (ice_cram_close (boot (fun n => n == 2))).2)).length = 8) ∧
    ((∀ i, i < 13 → (boot (fun n => n == 2)).cdone i = false) →
      (transportBytes (emitted (boot (fun n => n == 2))
        (ice_cram_close (boot (fun n => n == 2))).2)).length = 20) :=
  c1_close_dummy_bytes (boot (fun n => n == 2))

/-- C2: the value `ice_cram_close` returns is the status wire as sampled once
after the seventh settle byte: with `p` samples taken during DummyPoll, it is
sample number `p` of the trace, whatever the earlier samples were.  A wire
that always reads false gives false, one that always reads true gives true. -/
theorem c2_close_result (w : World) :
    ∃ p pre, emitted w (ice_cram_close w).2 = pre ++ List.replicate 7 dummyWrite ++
        [Event.gpio_get Pin.ICE_FPGA_CDONE_PIN (ice_cram_close w).1] ∧
      pre.countP Event.isStatusPoll = p ∧ 1 ≤ p ∧ p ≤ 13 ∧
      (ice_cram_close w).1 = w.cdone p ∧
      ((∀ i, w.cdone i = false) → (ice_cram_close w).1 = false) ∧
      ((∀ i, w.cdone i = true) → (ice_cram_close w).1 = true) := by
  obtain ⟨p, hp1, hp, hev, hres, hstop⟩ := close_spec w
  have hem := emitted_of_append w (ice_cram_close w).2 _ hev
  refine ⟨p, closeRelease ++ dummyPoll ((List.range p).map w.cdone), hem, ?_, hp1, hp, hres,
    ?_, ?_⟩
  · simp [List.countP_append, countP_statusPoll_dummyPoll, closeRelease, Event.isStatusPoll,
      List.countP_cons]
  · intro h; rw [hres]; exact h p
  · intro h; rw [hres]; exact h p

/-- C2 at a concrete trace: the status wire reads true at the first DummyPoll
sample only, and the call returns false. -/
theorem c2_close_result_witness :
    ∃ p pre, emitted (boot (fun n => n == 0)) (ice_cram_close (boot (fun n => n == 0))).2 =
        pre ++ List.replicate 7 dummyWrite ++
        [Event.gpio_get Pin.ICE_FPGA_CDONE_PIN (ice_cram_close (boot (fun n => n == 0))).1] ∧
      pre.countP Event.isStatusPoll = p ∧ 1 ≤ p ∧ p ≤ 13 ∧
      (ice_cram_close (boot (fun n => n == 0))).1 = (boot (fun n => n == 0)).cdone p ∧
      ((∀ i, (boot (fun n => n == 0)).cdone i = false) →
        (ice_cram_close (boot (fun n => n == 0))).1 = false) ∧
      ((∀ i, (boot (fun n => n == 0)).cdone i = true) →
        (ice_cram_close (boot (fun n => n == 0))).1 = true) :=
  c2_close_result (boot (fun n => n == 0))

/-! ## `ice_cram_write` -/

/-- A run of `write` calls logs one transport write per call, with the
arguments of that call, and touches nothing else. -/
theorem writes_spec (calls : List (List Nat × Nat)) :
    ∀ w : World, (ice_cram_writes calls w).events =
        w.events ++ calls.map (fun c => Event.ice_spi_write_blocking c.1 c.2) ∧
      (ice_cram_writes calls w).regs = w.regs ∧
      (ice_cram_writes calls w).input = w.input := by
  induction calls with
  | nil => intro w; simp [ice_cram_writes]
  | cons c calls ih =>
    intro w
    obtain ⟨buf, len⟩ := c
    obtain ⟨h1, h2, h3⟩ := ih (ice_cram_write buf len w)
    refine ⟨?_, ?_, ?_⟩
    · simp only [ice_cram_writes]; rw [h1]
      simp [ice_cram_write, ice_spi_write_blocking]
    · simp only [ice_cram_writes]; rw [h2]; simp [ice_cram_write, ice_spi_write_blocking]
    · simp only [ice_cram_writes]; rw [h3]; simp [ice_cram_write, ice_spi_write_blocking]

theorem transportBytes_writes (calls : List (List Nat × Nat)) :
    transportBytes (calls.map (fun c => Event.ice_spi_write_blocking c.1 c.2)) =
      (calls.map (fun c => c.1.take c.2)).flatten := by
  induction calls with
  | nil => rfl
  | cons c calls ih => simp [transportBytes, Event.bytes, ih]

/-- C5: for every sequence of calls `write(buf_i, len_i)` the transport gets
one write per call, in call order, each with that call's buffer and length;
the byte stream is `buf_1[0..len_1) ++ buf_2[0..len_2) ++ ...`; a call with
length 0 adds no byte; no GPIO register and no input line changes, and no
select or deselect is made. -/
theorem c5_write_forwards (calls : List (List Nat × Nat)) (w : World) :
    emitted w (ice_cram_writes calls w) =
      calls.map (fun c => Event.ice_spi_write_blocking c.1 c.2) ∧
    transportBytes (emitted w (ice_cram_writes calls w)) =
      (calls.map (fun c => c.1.take c.2)).flatten ∧
    (∀ buf, transportBytes (emitted w (ice_cram_write buf 0 w)) = []) ∧
    (ice_cram_writes calls w).regs = w.regs ∧
    (ice_cram_writes calls w).input = w.input ∧
    (∀ e, e ∈ emitted w (ice_cram_writes calls w) →
      e.isSelect = false ∧ e.isDeselect = false ∧ e.isSpiWrite = true) := by
  obtain ⟨h1, h2, h3⟩ := writes_spec calls w
  have hem := emitted_of_append w _ _ h1
  refine ⟨hem, ?_, ?_, h2, h3, ?_⟩
  · rw [hem, transportBytes_writes]
  · intro buf
    have : emitted w (ice_cram_write buf 0 w) = [Event.ice_spi_write_blocking buf 0] :=
      emitted_of_append w _ _ (by simp [ice_cram_write, ice_spi_write_blocking])
    rw [this]
    simp [transportBytes, Event.bytes]
  · intro e he
    rw [hem] at he
    simp only [List.mem_map] at he
    obtain ⟨c, _, hc⟩ := he
    subst hc
    exact ⟨rfl, rfl, rfl⟩

/-- C5 at a concrete call sequence: two bytes of a three-byte buffer, an
empty write, then one byte. -/
theorem c5_write_forwards_witness :
    emitted (boot (fun _ => false))
        (ice_cram_writes [([1, 2, 3], 2), ([9], 0), ([4], 1)] (boot (fun _ => false))) =
      [([1, 2, 3], 2), ([9], 0), ([4], 1)].map
        (fun c => Event.ice_spi_write_blocking c.1 c.2) ∧
    transportBytes (emitted (boot (fun _ => false))
        (ice_cram_writes [([1, 2, 3], 2), ([9], 0), ([4], 1)] (boot (fun _ => false)))) =
      ([([1, 2, 3], 2), ([9], 0), ([4], 1)].map (fun c => c.1.take c.2)).flatten ∧
    (∀ buf, transportBytes (emitted (boot (fun _ => false))
        (ice_cram_write buf 0 (boot (fun _ => false)))) = []) ∧
    (ice_cram_writes [([1, 2, 3], 2), ([9], 0), ([4], 1)] (boot (fun _ => false))).regs =
      (boot (fun _ => false)).regs ∧
    (ice_cram_writes [([1, 2, 3], 2), ([9], 0), ([4], 1)] (boot (fun _ => false))).input =
      (boot (fun _ => false)).input ∧
    (∀ e, e ∈ emitted (boot (fun _ => false))
        (ice_cram_writes [([1, 2, 3], 2), ([9], 0), ([4], 1)] (boot (fun _ => false))) →
      e.isSelect = false ∧ e.isDeselect = false ∧ e.isSpiWrite = true) :=
  c5_write_forwards [([1, 2, 3], 2), ([9], 0), ([4], 1)] (boot (fun _ => false))

/-! ## `ice_cram_open` -/

theorem open_reset_events (w : World) :
    (ice_cram_open_reset w).events = w.events ++
      [Event.gpio_put Pin.ICE_FPGA_CRESET_B_PIN false,
       Event.gpio_set_dir Pin.ICE_FPGA_CRESET_B_PIN GPIO_OUT,
       Event.gpio_init Pin.ICE_FPGA_SPI_CSN_PIN,
       Event.gpio_put Pin.ICE_FPGA_SPI_CSN_PIN false,
       Event.gpio_set_dir Pin.ICE_FPGA_SPI_CSN_PIN GPIO_OUT,
       Event.busy_wait_us 2] := by
  simp [ice_cram_open_reset, ice_fpga_stop, busy_wait_us, gpio_set_dir, gpio_put, gpio_init]

theorem open_reset_cdone (w : World) (i : Nat) : (ice_cram_open_reset w).cdone i = w.cdone i := by
  simp [ice_cram_open_reset, ice_fpga_stop, busy_wait_us, gpio_set_dir, gpio_put, gpio_init,
    World.cdone]

theorem open_reset_regs (w : World) :
    (ice_cram_open_reset w).regs Pin.ICE_FPGA_CRESET_B_PIN =
      { level := false, out := GPIO_OUT,
        pull_up := (w.regs Pin.ICE_FPGA_CRESET_B_PIN).pull_up } ∧
    (ice_cram_open_reset w).regs Pin.ICE_FPGA_SPI_CSN_PIN =
      { level := false, out := GPIO_OUT,
        pull_up := (w.regs Pin.ICE_FPGA_SPI_CSN_PIN).pull_up } := by
  simp [ice_cram_open_reset, ice_fpga_stop, busy_wait_us, gpio_set_dir, gpio_put, gpio_init]

/-- What a call of `ice_cram_open` does: the reset sequence, the call of
`ice_fpga_start` with its `p + 1` polls and result `b`, and then, whatever
`b` is, the 1300 us wait, the dummy byte and the select. -/
theorem open_spec (w : World) :
    ∃ p b ws w2, ice_fpga_start (ice_cram_open_reset w) = some (b, ws) ∧
      ice_cram_open w = some w2 ∧ p ≤ 100 ∧
      w2.events = ws.events ++ [Event.busy_wait_us 1300, dummyWrite,
        Event.ice_spi_chip_select Pin.ICE_FPGA_SPI_CSN_PIN] ∧
      w2.events = w.events ++ (openReset 2 ++ startWaits p ++
        [Event.gpio_get Pin.ICE_FPGA_CDONE_PIN b, Event.busy_wait_us 1300, dummyWrite,
         Event.ice_spi_chip_select Pin.ICE_FPGA_SPI_CSN_PIN]) ∧
      (∀ i, i < p → w.cdone i = false) ∧ w.cdone p = b ∧ (b = false → p = 100) ∧
      w2.regs Pin.ICE_FPGA_CRESET_B_PIN =
        { level := true, out := GPIO_OUT,
          pull_up := (w.regs Pin.ICE_FPGA_CRESET_B_PIN).pull_up } ∧
      w2.regs Pin.ICE_FPGA_SPI_CSN_PIN =
        { level := false, out := GPIO_OUT,
          pull_up := (w.regs Pin.ICE_FPGA_SPI_CSN_PIN).pull_up } := by
  obtain ⟨p, b, ws, hrun, hp, hev, hfalse, hb, hto, hregs, _⟩ :=
    start_spec (ice_cram_open_reset w)
  obtain ⟨hr1, hr2⟩ := open_reset_regs w
  have hopen : ice_cram_open w = some (ice_spi_chip_select Pin.ICE_FPGA_SPI_CSN_PIN
      (ice_spi_write_blocking [zero] 1 (busy_wait_us 1300 ws))) := by
    have : ice_cram_open w = match ice_fpga_start (ice_cram_open_reset w) with
        | none => none
        | some (_, w) => some (ice_spi_chip_select Pin.ICE_FPGA_SPI_CSN_PIN
            (ice_spi_write_blocking [zero] 1 (busy_wait_us 1300 w))) := rfl
    rw [this, hrun]
  refine ⟨p, b, ws, _, hrun, hopen, hp, ?_, ?_, ?_, ?_, hto, ?_, ?_⟩
  · simp [ice_spi_chip_select, ice_spi_write_blocking, busy_wait_us, dummyWrite, zero]
  · simp only [ice_spi_chip_select, ice_spi_write_blocking, busy_wait_us, emit_events]
    rw [hev, open_reset_events]
    simp [openReset, dummyWrite, zero]
  · intro i hi; rw [← open_reset_cdone w i]; exact hfalse i hi
  · rw [← open_reset_cdone w p]; exact hb
  · simp only [ice_spi_chip_select, ice_spi_write_blocking, busy_wait_us, emit_regs]
    rw [hregs, hr1]; simp
  · simp only [ice_spi_chip_select, ice_spi_write_blocking, busy_wait_us, emit_regs]
    rw [hregs, hr2]; simp

theorem startWaits_quiet (n : Nat) (e : Event) (h : e ∈ startWaits n) :
    e.isTransport = false ∧ e.releasesCsn = false := by
  rcases startWaits_mem n e h with h | h <;> subst h <;> exact ⟨rfl, rfl⟩

theorem filter_transport_startWaits (n : Nat) :
    (startWaits n).filter Event.isTransport = [] := by
  rw [List.filter_eq_nil_iff]
  intro e he
  rw [(startWaits_quiet n e he).1]
  exact Bool.false_ne_true

/-- C6: for every status-wire trace `ice_cram_open` runs to completion, and
after `ice_fpga_start` has returned, with either value `b`, it waits 1300 us,
writes the one dummy byte `0x00` and selects the bus on the chip-select pin;
its calls to the SPI transport are that write and that select, whatever `b`
is.  `b` is false exactly when the first 101 samples of the wire are false. -/
theorem c6_open_ignores_start (w : World) :
    ∃ b ws w2, ice_fpga_start (ice_cram_open_reset w) = some (b, ws) ∧
      ice_cram_open w = some w2 ∧
      w2.events = ws.events ++ [Event.busy_wait_us 1300,
        Event.ice_spi_write_blocking [0x00] 1,
        Event.ice_spi_chip_select Pin.ICE_FPGA_SPI_CSN_PIN] ∧
      (emitted w w2).filter Event.isTransport = [Event.ice_spi_write_blocking [0x00] 1,
        Event.ice_spi_chip_select Pin.ICE_FPGA_SPI_CSN_PIN] ∧
      (b = false ↔ ∀ i, i ≤ 100 → w.cdone i = false) := by
  obtain ⟨p, b, ws, w2, hrun, hopen, hp, hev1, hev2, hfalse, hb, hto, _, _⟩ := open_spec w
  have hem := emitted_of_append w w2 _ hev2
  refine ⟨b, ws, w2, hrun, hopen, hev1, ?_, ?_⟩
  · rw [hem]
    simp only [List.filter_append, filter_transport_startWaits]
    simp [openReset, dummyWrite, Event.isTransport, Event.isSpiWrite, Event.isSelect,
      Event.isDeselect, List.filter_cons]
  · constructor
    · intro hbf i hi
      have hp100 := hto hbf
      rcases Nat.lt_or_ge i p with hlt | hge
      · exact hfalse i hlt
      · have hip : i = p := by omega
        rw [hip, hb]; exact hbf
    · intro hall
      rw [← hb]; exact hall p hp

/-- C6 at the trace that never asserts: `ice_fpga_start` times out and
`ice_cram_open` goes on all the same. -/
theorem c6_open_ignores_start_witness :
    ∃ b ws w2, ice_fpga_start (ice_cram_open_reset (boot (fun _ => false))) = some (b, ws) ∧
      ice_cram_open (boot (fun _ => false)) = some w2 ∧
      w2.events = ws.events ++ [Event.busy_wait_us 1300,
        Event.ice_spi_write_blocking [0x00] 1,
        Event.ice_spi_chip_select Pin.ICE_FPGA_SPI_CSN_PIN] ∧
      (emitted (boot (fun _ => false)) w2).filter Event.isTransport =
        [Event.ice_spi_write_blocking [0x00] 1,
         Event.ice_spi_chip_select Pin.ICE_FPGA_SPI_CSN_PIN] ∧
      (b = false ↔ ∀ i, i ≤ 100 → (boot (fun _ => false)).cdone i = false) :=
  c6_open_ignores_start (boot (fun _ => false))

/-- C10: the calls of `ice_cram_open`, in order: reset driven low and made an
output; chip-select initialised, driven low and made an output; a busy-wait of
2 us (at least 200 ns); reset driven high; the polls of `ice_fpga_start`, the
last of which returns `b`; a busy-wait of 1300 us; the dummy byte; the select.
When `ice_fpga_start` is called reset is still an output driven low and
chip-select is an output driven low; when `ice_cram_open` returns reset is an
output driven high and chip-select is an output driven low. -/
theorem c10_open_order (w : World) :
    ∃ t1 t2 p b w2, ice_cram_open w = some w2 ∧
      emitted w w2 =
        [Event.gpio_put Pin.ICE_FPGA_CRESET_B_PIN false,
         Event.gpio_set_dir Pin.ICE_FPGA_CRESET_B_PIN GPIO_OUT,
         Event.gpio_init Pin.ICE_FPGA_SPI_CSN_PIN,
         Event.gpio_put Pin.ICE_FPGA_SPI_CSN_PIN false,
         Event.gpio_set_dir Pin.ICE_FPGA_SPI_CSN_PIN GPIO_OUT,
         Event.busy_wait_us t1,
         Event.gpio_put Pin.ICE_FPGA_CRESET_B_PIN true,
         Event.gpio_set_dir Pin.ICE_FPGA_CRESET_B_PIN GPIO_OUT] ++
        startWaits p ++
        [Event.gpio_get Pin.ICE_FPGA_CDONE_PIN b,
         Event.busy_wait_us t2,
         Event.ice_spi_write_blocking [0x00] 1,
         Event.ice_spi_chip_select Pin.ICE_FPGA_SPI_CSN_PIN] ∧
      t1 = 2 ∧ 200 ≤ t1 * 1000 ∧ t2 = 1300 ∧ p ≤ 100 ∧
      ((ice_cram_open_reset w).regs Pin.ICE_FPGA_CRESET_B_PIN).level = false ∧
      ((ice_cram_open_reset w).regs Pin.ICE_FPGA_CRESET_B_PIN).out = GPIO_OUT ∧
      ((ice_cram_open_reset w).regs Pin.ICE_FPGA_SPI_CSN_PIN).level = false ∧
      ((ice_cram_open_reset w).regs Pin.ICE_FPGA_SPI_CSN_PIN).out = GPIO_OUT ∧
      (w2.regs Pin.ICE_FPGA_CRESET_B_PIN).level = true ∧
      (w2.regs Pin.ICE_FPGA_CRESET_B_PIN).out = GPIO_OUT ∧
      (w2.regs Pin.ICE_FPGA_SPI_CSN_PIN).level = false ∧
      (w2.regs Pin.ICE_FPGA_SPI_CSN_PIN).out = GPIO_OUT := by
  obtain ⟨p, b, ws, w2, hrun, hopen, hp, hev1, hev2, hfalse, hb, hto, hreg1, hreg2⟩ :=
    open_spec w
  obtain ⟨hr1, hr2⟩ := open_reset_regs w
  have hem := emitted_of_append w w2 _ hev2
  refine ⟨2, 1300, p, b, w2, hopen, ?_, rfl, by omega, rfl, hp, ?_, ?_, ?_, ?_, ?_, ?_, ?_, ?_⟩
  · rw [hem]; rfl
  · rw [hr1]
  · rw [hr1]
  · rw [hr2]
  · rw [hr2]
  · rw [hreg1]
  · rw [hreg1]
  · rw [hreg2]
  · rw [hreg2]

/-- C10 at a concrete trace: the status wire reads true from the second poll
on. -/
theorem c10_open_order_witness :
    ∃ t1 t2 p b w2, ice_cram_open (boot (fun n => decide (1 ≤ n))) = some w2 ∧
      emitted (boot (fun n => decide (1 ≤ n))) w2 =
        [Event.gpio_put Pin.ICE_FPGA_CRESET_B_PIN false,
         Event.gpio_set_dir Pin.ICE_FPGA_CRESET_B_PIN GPIO_OUT,
         Event.gpio_init Pin.ICE_FPGA_SPI_CSN_PIN,
         Event.gpio_put Pin.ICE_FPGA_SPI_CSN_PIN false,
         Event.gpio_set_dir Pin.ICE_FPGA_SPI_CSN_PIN GPIO_OUT,
         Event.busy_wait_us t1,
         Event.gpio_put Pin.ICE_FPGA_CRESET_B_PIN true,
         Event.gpio_set_dir Pin.ICE_FPGA_CRESET_B_PIN GPIO_OUT] ++
        startWaits p ++
        [Event.gpio_get Pin.ICE_FPGA_CDONE_PIN b,
         Event.busy_wait_us t2,
         Event.ice_spi_write_blocking [0x00] 1,
         Event.ice_spi_chip_select Pin.ICE_FPGA_SPI_CSN_PIN] ∧
      t1 = 2 ∧ 200 ≤ t1 * 1000 ∧ t2 = 1300 ∧ p ≤ 100 ∧
      ((ice_cram_open_reset (boot (fun n => decide (1 ≤ n)))).regs
        Pin.ICE_FPGA_CRESET_B_PIN).level = false ∧
      ((ice_cram_open_reset (boot (fun n => decide (1 ≤ n)))).regs
        Pin.ICE_FPGA_CRESET_B_PIN).out = GPIO_OUT ∧
      ((ice_cram_open_reset (boot (fun n => decide (1 ≤ n)))).regs
        Pin.ICE_FPGA_SPI_CSN_PIN).level = false ∧
      ((ice_cram_open_reset (boot (fun n => decide (1 ≤ n)))).regs
        Pin.ICE_FPGA_SPI_CSN_PIN).out = GPIO_OUT ∧
      (w2.regs Pin.ICE_FPGA_CRESET_B_PIN).level = true ∧
      (w2.regs Pin.ICE_FPGA_CRESET_B_PIN).out = GPIO_OUT ∧
      (w2.regs Pin.ICE_FPGA_SPI_CSN_PIN).level = false ∧
      (w2.regs Pin.ICE_FPGA_SPI_CSN_PIN).out = GPIO_OUT :=
  c10_open_order (boot (fun n => decide (1 ≤ n)))

/-! ## A whole session -/

theorem dummyPoll_quiet (vals : List Bool) (e : Event) (h : e ∈ dummyPoll vals) :
    e.isSelect = false ∧ e.isDeselect = false := by
  rcases dummyPoll_mem vals e h with h | ⟨v, h⟩ <;> subst h <;> exact ⟨rfl, rfl⟩

/-- No call of `ice_cram_open` before its select is a select or deselect. -/
theorem open_head_quiet (p : Nat) (b : Bool) (e : Event)
    (h : e ∈ openReset 2 ++ startWaits p ++
      [Event.gpio_get Pin.ICE_FPGA_CDONE_PIN b, Event.busy_wait_us 1300, dummyWrite]) :
    e.isSelect = false ∧ e.isDeselect = false := by
  simp only [List.mem_append] at h
  rcases h with (h | h) | h
  · simp only [openReset, List.mem_cons, List.mem_singleton] at h
    rcases h with h | h | h | h | h | h | h | h | h
    all_goals first
      | (subst h; exact ⟨rfl, rfl⟩)
      | simp at h
  · have := (startWaits_quiet p e h).1
    simp only [Event.isTransport, Bool.or_eq_false_iff] at this
    exact ⟨this.1.2, this.2⟩
  · simp only [List.mem_cons, List.mem_singleton] at h
    rcases h with h | h | h | h
    all_goals first
      | (subst h; exact ⟨rfl, rfl⟩)
      | simp at h

/-- No call of `ice_cram_close` after its deselect is a select or deselect. -/
theorem close_tail_quiet (vals : List Bool) (r : Bool) (e : Event)
    (h : e ∈ closeFloat ++ dummyPoll vals ++ List.replicate 7 dummyWrite ++
      [Event.gpio_get Pin.ICE_FPGA_CDONE_PIN r]) :
    e.isSelect = false ∧ e.isDeselect = false := by
  simp only [List.mem_append, List.mem_singleton] at h
  rcases h with ((h | h) | h) | h
  · simp only [closeFloat, List.mem_cons, List.mem_singleton] at h
    rcases h with h | h | h | h | h
    all_goals first
      | (subst h; exact ⟨rfl, rfl⟩)
      | simp at h
  · exact dummyPoll_quiet vals e h
  · rw [List.eq_of_mem_replicate h]; exact ⟨rfl, rfl⟩
  · subst h; exact ⟨rfl, rfl⟩

/-- C7: a session `open(); write()*; close()` runs to completion for every
status-wire trace and every list of write buffers.  Its calls are: a head in
which chip-select is driven low and made an output, with no later call of the
head driving it high or rewriting its direction; the select; one transport
write per `write` call, in order; the deselect; a tail.  Head and tail hold no
select and no deselect, so there is exactly one of each, and no call between
them drives chip-select high or rewrites its direction. -/
theorem c7_session_chip_select (calls : List (List Nat × Nat)) (w : World) :
    ∃ r w2 head tail, ice_cram_session calls w = some (r, w2) ∧
      emitted w w2 = head ++ [Event.ice_spi_chip_select Pin.ICE_FPGA_SPI_CSN_PIN] ++
        calls.map (fun c => Event.ice_spi_write_blocking c.1 c.2) ++
        [Event.ice_spi_chip_deselect Pin.ICE_FPGA_SPI_CSN_PIN] ++ tail ∧
      (∃ a c, head = a ++ [Event.gpio_put Pin.ICE_FPGA_SPI_CSN_PIN false,
          Event.gpio_set_dir Pin.ICE_FPGA_SPI_CSN_PIN GPIO_OUT] ++ c ∧
        ∀ e, e ∈ c → e.releasesCsn = false) ∧
      (∀ e, e ∈ head ++ tail → e.isSelect = false ∧ e.isDeselect = false) ∧
      (emitted w w2).countP Event.isSelect = 1 ∧
      (emitted w w2).countP Event.isDeselect = 1 ∧
      (∀ e, e ∈ calls.map (fun c => Event.ice_spi_write_blocking c.1 c.2) →
        e.releasesCsn = false ∧ e.isSelect = false ∧ e.isDeselect = false) ∧
      transportBytes (calls.map (fun c => Event.ice_spi_write_blocking c.1 c.2)) =
        (calls.map (fun c => c.1.take c.2)).flatten := by
  obtain ⟨p, b, ws, w1, _, hopen, _, _, hev1, _, _, _, _, _⟩ := open_spec w
  obtain ⟨hevw, _, _⟩ := writes_spec calls w1
  obtain ⟨q, _, _, hevc, _, _⟩ := close_spec (ice_cram_writes calls w1)
  have hsess : ice_cram_session calls w = some (ice_cram_close (ice_cram_writes calls w1)) := by
    simp [ice_cram_session, hopen]
  have hmid : ∀ e, e ∈ calls.map (fun c => Event.ice_spi_write_blocking c.1 c.2) →
      e.releasesCsn = false ∧ e.isSelect = false ∧ e.isDeselect = false := by
    intro e he
    simp only [List.mem_map] at he
    obtain ⟨c, _, hc⟩ := he
    subst hc
    exact ⟨rfl, rfl, rfl⟩
  have hhead := open_head_quiet p b
  have htail := close_tail_quiet ((List.range q).map (ice_cram_writes calls w1).cdone)
    (ice_cram_close (ice_cram_writes calls w1)).1
  have hem : emitted w (ice_cram_close (ice_cram_writes calls w1)).2 =
      (openReset 2 ++ startWaits p ++
        [Event.gpio_get Pin.ICE_FPGA_CDONE_PIN b, Event.busy_wait_us 1300, dummyWrite]) ++
      [Event.ice_spi_chip_select Pin.ICE_FPGA_SPI_CSN_PIN] ++
      calls.map (fun c => Event.ice_spi_write_blocking c.1 c.2) ++
      [Event.ice_spi_chip_deselect Pin.ICE_FPGA_SPI_CSN_PIN] ++
      (closeFloat ++ dummyPoll ((List.range q).map (ice_cram_writes calls w1).cdone) ++
        List.replicate 7 dummyWrite ++
        [Event.gpio_get Pin.ICE_FPGA_CDONE_PIN (ice_cram_close (ice_cram_writes calls w1)).1]) := by
    apply emitted_of_append
    rw [hevc, hevw, hev1]
    simp [closeRelease, closeFloat, List.append_assoc]
  have hzero : ∀ (l : List Event), (∀ e, e ∈ l → e.isSelect = false ∧ e.isDeselect = false) →
      l.countP Event.isSelect = 0 ∧ l.countP Event.isDeselect = 0 := by
    intro l hl
    constructor
    · rw [List.countP_eq_zero]
      intro e he; rw [(hl e he).1]; exact Bool.false_ne_true
    · rw [List.countP_eq_zero]
      intro e he; rw [(hl e he).2]; exact Bool.false_ne_true
  obtain ⟨hh1, hh2⟩ := hzero _ hhead
  obtain ⟨ht1, ht2⟩ := hzero _ htail
  obtain ⟨hm1, hm2⟩ := hzero _ (fun e he => (hmid e he).2)
  refine ⟨(ice_cram_close (ice_cram_writes calls w1)).1,
    (ice_cram_close (ice_cram_writes calls w1)).2, _, _, hsess, hem, ?_, ?_, ?_, ?_, hmid,
    transportBytes_writes calls⟩
  · refine ⟨[Event.gpio_put Pin.ICE_FPGA_CRESET_B_PIN false,
        Event.gpio_set_dir Pin.ICE_FPGA_CRESET_B_PIN GPIO_OUT,
        Event.gpio_init Pin.ICE_FPGA_SPI_CSN_PIN],
      [Event.busy_wait_us 2, Event.gpio_put Pin.ICE_FPGA_CRESET_B_PIN true,
        Event.gpio_set_dir Pin.ICE_FPGA_CRESET_B_PIN GPIO_OUT] ++ startWaits p ++
        [Event.gpio_get Pin.ICE_FPGA_CDONE_PIN b, Event.busy_wait_us 1300, dummyWrite],
      by simp [openReset], ?_⟩
    intro e he
    simp only [List.mem_append, List.mem_cons, List.mem_singleton] at he
    rcases he with ((h | h | h | h) | h) | (h | h | h | h)
    all_goals first
      | (subst h; rfl)
      | exact (startWaits_quiet p e h).2
      | simp at h
  · intro e he
    rw [List.mem_append] at he
    rcases he with he | he
    · exact hhead e he
    · exact htail e he
  · rw [hem]
    simp only [List.countP_append, hh1, ht1, hm1]
    simp [List.countP_cons, Event.isSelect]
  · rw [hem]
    simp only [List.countP_append, hh2, ht2, hm2]
    simp [List.countP_cons, Event.isDeselect]

/-- C7 at a concrete session: two writes under a status wire that asserts at
once. -/
theorem c7_session_chip_select_witness :
    ∃ r w2 head tail,
      ice_cram_session [([1, 2, 3], 3), ([4, 5], 2)] (boot (fun _ => true)) = some (r, w2) ∧
      emitted (boot (fun _ => true)) w2 =
        head ++ [Event.ice_spi_chip_select Pin.ICE_FPGA_SPI_CSN_PIN] ++
        [([1, 2, 3], 3), ([4, 5], 2)].map (fun c => Event.ice_spi_write_blocking c.1 c.2) ++
        [Event.ice_spi_chip_deselect Pin.ICE_FPGA_SPI_CSN_PIN] ++ tail ∧
      (∃ a c, head = a ++ [Event.gpio_put Pin.ICE_FPGA_SPI_CSN_PIN false,
          Event.gpio_set_dir Pin.ICE_FPGA_SPI_CSN_PIN GPIO_OUT] ++ c ∧
        ∀ e, e ∈ c → e.releasesCsn = false) ∧
      (∀ e, e ∈ head ++ tail → e.isSelect = false ∧ e.isDeselect = false) ∧
      (emitted (boot (fun _ => true)) w2).countP Event.isSelect = 1 ∧
      (emitted (boot (fun _ => true)) w2).countP Event.isDeselect = 1 ∧
      (∀ e, e ∈ [([1, 2, 3], 3), ([4, 5], 2)].map
          (fun c => Event.ice_spi_write_blocking c.1 c.2) →
        e.releasesCsn = false ∧ e.isSelect = false ∧ e.isDeselect = false) ∧
      transportBytes ([([1, 2, 3], 3), ([4, 5], 2)].map
          (fun c => Event.ice_spi_write_blocking c.1 c.2)) =
        ([([1, 2, 3], 3), ([4, 5], 2)].map (fun c => c.1.take c.2)).flatten :=
  c7_session_chip_select [([1, 2, 3], 3), ([4, 5], 2)] (boot (fun _ => true))

/-! ## `ice_fpga_init` -/

/-- What `ice_fpga_init` programs for a requested frequency from 1 to 48: it
returns, its last call is `clock_gpio_init` with the truncated quotient
`d = 48 / freq_mhz`, which is non-zero, and `d * freq_mhz = 48` holds exactly
for the divisors of 48. -/
theorem init_divider_spec (freq_mhz : Nat) (w : World) (h1 : 1 ≤ freq_mhz)
    (h48 : freq_mhz ≤ 48) :
    ∃ d w2, ice_fpga_init freq_mhz w = some w2 ∧
      emitted w w2 =
        [Event.gpio_set_dir Pin.ICE_FPGA_CRESET_B_PIN GPIO_IN,
         Event.gpio_init Pin.ICE_FPGA_CRESET_B_PIN,
         Event.gpio_init Pin.ICE_FPGA_CDONE_PIN,
         Event.gpio_set_dir Pin.ICE_FPGA_CDONE_PIN GPIO_IN,
         Event.clock_gpio_init Pin.ICE_FPGA_CLOCK_PIN
           ClockSrc.CLOCKS_CLK_GPOUT0_CTRL_AUXSRC_VALUE_CLK_USB d] ∧
      clockDivider (emitted w w2) = some d ∧
      d = 48 / freq_mhz ∧ d ≠ 0 ∧
      (d * freq_mhz = 48 ↔ freq_mhz ∣ 48) := by
  have hmod : freq_mhz % 256 = freq_mhz := by omega
  have hne : freq_mhz ≠ 0 := by omega
  have hrun : ice_fpga_init freq_mhz w = some (clock_gpio_init Pin.ICE_FPGA_CLOCK_PIN
      ClockSrc.CLOCKS_CLK_GPOUT0_CTRL_AUXSRC_VALUE_CLK_USB (48 / freq_mhz)
      (gpio_set_dir Pin.ICE_FPGA_CDONE_PIN GPIO_IN (gpio_init Pin.ICE_FPGA_CDONE_PIN
        (gpio_init Pin.ICE_FPGA_CRESET_B_PIN
          (gpio_set_dir Pin.ICE_FPGA_CRESET_B_PIN GPIO_IN w))))) := by
    simp [ice_fpga_init, hmod, hne]
  have hem := emitted_of_append w (clock_gpio_init Pin.ICE_FPGA_CLOCK_PIN
      ClockSrc.CLOCKS_CLK_GPOUT0_CTRL_AUXSRC_VALUE_CLK_USB (48 / freq_mhz)
      (gpio_set_dir Pin.ICE_FPGA_CDONE_PIN GPIO_IN (gpio_init Pin.ICE_FPGA_CDONE_PIN
        (gpio_init Pin.ICE_FPGA_CRESET_B_PIN
          (gpio_set_dir Pin.ICE_FPGA_CRESET_B_PIN GPIO_IN w)))))
      [Event.gpio_set_dir Pin.ICE_FPGA_CRESET_B_PIN GPIO_IN,
       Event.gpio_init Pin.ICE_FPGA_CRESET_B_PIN,
       Event.gpio_init Pin.ICE_FPGA_CDONE_PIN,
       Event.gpio_set_dir Pin.ICE_FPGA_CDONE_PIN GPIO_IN,
       Event.clock_gpio_init Pin.ICE_FPGA_CLOCK_PIN
         ClockSrc.CLOCKS_CLK_GPOUT0_CTRL_AUXSRC_VALUE_CLK_USB (48 / freq_mhz)]
      (by simp [clock_gpio_init, gpio_set_dir, gpio_init])
  have hpos : 0 < freq_mhz := by omega
  refine ⟨48 / freq_mhz, _, hrun, hem, ?_, rfl, ?_, ?_⟩
  · rw [hem]; simp [clockDivider]
  · exact Nat.ne_of_gt (Nat.div_pos h48 hpos)
  · constructor
    · intro h; exact Dvd.intro_left _ h
    · intro h; exact Nat.div_mul_cancel h

/-- The example program's `ice_fpga_init(12)` programs the divider 4, and
`4 * 12 = 48`: the clock output is the 12 MHz asked for. -/
theorem init_twelve_divider :
    ∃ w2, ice_fpga_init 12 (boot (fun _ => false)) = some w2 ∧
      clockDivider (emitted (boot (fun _ => false)) w2) = some 4 ∧ 4 * 12 = 48 :=
  ⟨_, rfl, by decide, by decide⟩

/-- C9: `ice_fpga_init` is to start the clock output at the requested
frequency, with a divider `d` such that `d * freq_mhz = 48`.  The code misses
this at the in-range request `freq_mhz = 7`: it returns, having programmed
the truncated quotient `48 / 7 = 6` as the divider of the 48 MHz clock; the
divider is non-zero, but `6 * 7 = 42`, not 48, and 48 MHz divided by 6 is
8 MHz, not the 7 MHz asked for. -/
theorem c9_init_seven_misses :
    1 ≤ 7 ∧ 7 ≤ 48 ∧
    ∃ w2, ice_fpga_init 7 (boot (fun _ => false)) = some w2 ∧
      emitted (boot (fun _ => false)) w2 =
        [Event.gpio_set_dir Pin.ICE_FPGA_CRESET_B_PIN GPIO_IN,
         Event.gpio_init Pin.ICE_FPGA_CRESET_B_PIN,
         Event.gpio_init Pin.ICE_FPGA_CDONE_PIN,
         Event.gpio_set_dir Pin.ICE_FPGA_CDONE_PIN GPIO_IN,
         Event.clock_gpio_init Pin.ICE_FPGA_CLOCK_PIN
           ClockSrc.CLOCKS_CLK_GPOUT0_CTRL_AUXSRC_VALUE_CLK_USB 6] ∧
      clockDivider (emitted (boot (fun _ => false)) w2) = some 6 ∧
      6 ≠ 0 ∧ 6 * 7 = 42 ∧ 6 * 7 ≠ 48 ∧ 48 / 6 = 8 ∧ 48 / 6 ≠ 7 :=
  ⟨by decide, by decide, _, rfl, by decide, by decide, by decide, by decide, by decide,
    by decide, by decide⟩

end PicoIce
